import Mathlib

/-!
Verification of the code generation / verification subsystem of the QR
application database layer (src/database.js, class DatabaseManager).

The JavaScript source is shallowly embedded:

* Numbers that the source manipulates as millisecond timestamps are `Int`
  (or `Nat` for the clock value fed to the generator); machine overflow is
  irrelevant at these magnitudes.
* A nullable field is an `Option`; JavaScript truthiness of a number is
  "nonzero", of a string is "nonempty", and is modelled explicitly at each
  use site.
* The IndexedDB record store is a `Store` structure holding the `users` and
  `codes` collections as lists ordered by insertion, with the auto-increment
  counter `nextCodeId`.  An index lookup `getAll(coll, index, v)` is a
  `List.filter`, a primary-key `get` is a `List.find?`, and the unique index
  on the code string makes `add` fallible (`Except`).
* Fallible operations return `Except DBError`; the async read-after-write
  races that the source defends against are modelled by boolean oracles
  (`FailOracle` for the verifier's store errors, `RBOracle` for the
  read-back visibility of freshly written codes).
* `Math.random()` is a double `k / 2 ^ 53` with `k < 2 ^ 53`, passed as the
  numerator `k`; `Number.prototype.toString(36)` is the exact base-36
  expansion (finite for such dyadic rationals), matching what the engine
  prints on the short dyadic values the proofs rely on.
-/

deriving instance DecidableEq for Except

/-! ## JavaScript string and number primitives used by the generator -/

/-- Digit character of base-36 printing, lower case, as produced by
JavaScript Number.prototype.toString(36). -/
def b36digit (d : Nat) : Char :=
  if d < 10 then Char.ofNat (48 + d) else Char.ofNat (87 + d)

/-- Base-36 digits of a natural number, most significant first; fuel-driven
so that it computes by kernel reduction. -/
def natToB36Aux : Nat → Nat → List Char
  | 0, _ => []
  | fuel + 1, n =>
    if n < 36 then [b36digit n]
    else natToB36Aux fuel (n / 36) ++ [b36digit (n % 36)]

/-- JavaScript integer toString(36). -/
def natToB36 (n : Nat) : String := String.mk (natToB36Aux (n + 1) n)

/-- Fractional base-36 digits of k / 2^53 (the exact expansion; it is finite
because 36^27 is a multiple of 2^53). -/
def fracB36Aux : Nat → Nat → List Char
  | 0, _ => []
  | fuel + 1, num =>
    if num = 0 then []
    else b36digit (num * 36 / 2 ^ 53) :: fracB36Aux fuel (num * 36 % 2 ^ 53)

/-- JavaScript toString(36) applied to the double k / 2^53 in [0, 1):
the string "0" for zero, otherwise "0." followed by the fractional digits. -/
def jsNumToB36 (k : Nat) : String :=
  if k = 0 then "0" else String.mk ('0' :: '.' :: fracB36Aux 60 k)

/-- JavaScript String.prototype.slice(-4): the last four characters (the
whole string when it is shorter). -/
def sliceLast4 (s : String) : String :=
  String.mk (s.data.drop (s.data.length - 4))

/-- JavaScript String.prototype.substring(a, b) for a ≤ b. -/
def jsSubstr (s : String) (a b : Nat) : String :=
  String.mk ((s.data.drop a).take (b - a))

/-- JavaScript String.prototype.toUpperCase on the characters involved
here (ASCII). -/
def sUpper (s : String) : String := String.mk (s.data.map Char.toUpper)

/-- Does one character list occur inside another (JavaScript
String.prototype.includes, on lists of characters)? -/
def listIncl (pat : List Char) : List Char → Bool
  | [] => pat.isEmpty
  | c :: t => pat.isPrefixOf (c :: t) || listIncl pat t

/-- JavaScript String.prototype.includes. -/
def strIncludes (s pat : String) : Bool := listIncl pat.data s.data

/-! ## The code generator (generateCode, src/database.js lines 557-562) -/

/-- generateCode(type): prefix "ADM" when type === 'admin' else "VWR",
then "-" and the upper-cased last 4 base-36 characters of the clock,
then the upper-cased characters 2..5 of Math.random().toString(36).
The clock value nowMs and the entropy numerator rand (Math.random()
= rand / 2^53) are explicit arguments. -/
def generateCode (ty : String) (nowMs : Nat) (rand : Nat) : String :=
  let pfx := if ty = "admin" then "ADM" else "VWR"
  let tpart := sUpper (sliceLast4 (natToB36 nowMs))
  let rpart := sUpper (jsSubstr (jsNumToB36 rand) 2 6)
  pfx ++ "-" ++ tpart ++ rpart

/-- A character accepted by the regular-expression class [A-Z0-9]. -/
def isB36UpperChar (c : Char) : Bool :=
  (decide ('A' ≤ c) && decide (c ≤ 'Z')) || (decide ('0' ≤ c) && decide (c ≤ '9'))

/-- The specification regular expression (ADM|VWR)-[A-Z0-9]\x7b8\x7d anchored at
both ends: a 4-character recognised head, total length 12, and every
remaining character in the class [A-Z0-9]. -/
def matchesCodePattern (s : String) : Bool :=
  (decide (s.data.take 4 = "ADM-".data) || decide (s.data.take 4 = "VWR-".data))
    && (s.data.length == 12)
    && (s.data.drop 4).all isB36UpperChar

/-! ## Data model -/

/-- A record of the users collection, restricted to the fields the code
subsystem reads.  product models the nullable free-text field (none is a
null/undefined field).  expiry models the local variable
new Date(user.expiryDate).getTime() in verifyCode: none when the raw
expiryDate field is null/falsy, some t (milliseconds) when it is a date
string parsing to t. -/
structure User where
  id : Nat
  name : String
  email : String
  product : Option String
  expiry : Option Int
deriving DecidableEq

/-- A record of the codes collection (keyPath id, autoIncrement; unique
index on code; indexes on userId, type, isActive). -/
structure AccessCode where
  id : Nat
  userId : Nat
  code : String
  type : String
  isActive : Bool
deriving DecidableEq

/-- The record store state touched by the subsystem. -/
structure Store where
  users : List User
  codes : List AccessCode
  nextCodeId : Nat
deriving DecidableEq

/-- Error taxonomy: storeError is a rejected IndexedDB request,
constraintViolation a unique-index violation on add, recordNotFound the
explicit throw of updateCode, jsTypeError a thrown TypeError, and
persistenceVerificationFailed the throw at line 537 of the source. -/
inductive DBError where
  | storeError
  | constraintViolation
  | recordNotFound
  | jsTypeError
  | persistenceVerificationFailed
deriving DecidableEq

/-! ## Store primitives -/

/-- getCode(codeString): getAll('codes', 'code', codeString) then the first
result or null (lines 337-340). -/
def findCode (st : Store) (s : String) : Option AccessCode :=
  st.codes.find? (fun c => c.code == s)

/-- get('codes', id): primary-key lookup. -/
def findById (st : Store) (i : Nat) : Option AccessCode :=
  st.codes.find? (fun c => c.id == i)

/-- getUser(userId): get('users', userId). -/
def findUser (st : Store) (uid : Nat) : Option User :=
  st.users.find? (fun u => u.id == uid)

/-- The active codes of a user: getAll('codes', 'userId', uid) filtered on
isActive, i.e. the list getUserCodes(uid) returns on the index path with
type = null (lines 410-431). -/
def activeCodesOf (st : Store) (uid : Nat) : List AccessCode :=
  st.codes.filter (fun c => c.userId == uid && c.isActive)

/-- addCode (lines 325-335): add to the codes collection; the unique index
on code rejects a duplicate code string; otherwise the record is appended
with the auto-increment key, and the assigned key is returned. -/
def addCode (st : Store) (uid : Nat) (s ty : String) : Except DBError (Store × Nat) :=
  if st.codes.any (fun c => c.code == s) then .error .constraintViolation
  else .ok ({ users := st.users
              codes := st.codes ++ [⟨st.nextCodeId, uid, s, ty, true⟩]
              nextCodeId := st.nextCodeId + 1 }, st.nextCodeId)

/-- updateCode(codeId, data) restricted to the isActive field (lines
433-443): load by key, throw when absent, otherwise put the merged
record back under the same key. -/
def updateCodeActive (st : Store) (cid : Nat) (b : Bool) : Except DBError Store :=
  match st.codes.find? (fun c => c.id == cid) with
  | none => .error .recordNotFound
  | some _ =>
      .ok { st with codes := st.codes.map (fun c => if c.id == cid then { c with isActive := b } else c) }

/-- deleteCode(codeId) (lines 445-447): delete by primary key. -/
def deleteCodeById (st : Store) (cid : Nat) : Store :=
  { st with codes := st.codes.filter (fun c => !(c.id == cid)) }

/-- deleteUserCodes(userId) (lines 449-453): delete every code returned by
getUserCodes(userId) — which yields only the ACTIVE codes of the user. -/
def deleteUserCodes (st : Store) (uid : Nat) : Store :=
  (activeCodesOf st uid).foldl (fun acc c => deleteCodeById acc c.id) st

/-- deleteUser(userId) (lines 317-322), restricted to the collections of
this model: cascade deleteUserCodes, then delete the user record. -/
def deleteUser (st : Store) (uid : Nat) : Store :=
  let st1 := deleteUserCodes st uid
  { st1 with users := st1.users.filter (fun u => !(u.id == uid)) }

/-! ## The verifier (verifyCode, src/database.js lines 343-408) -/

/-- Which verifier-side store requests reject: getCodeFail for the lookup
by code string, getUserFail for the user load, codesIndexFail for the
userId-index query inside getUserCodes, codesScanFail for its full-scan
fallback.  All false models a store that serves every request. -/
structure FailOracle where
  getCodeFail : Bool
  getUserFail : Bool
  codesIndexFail : Bool
  codesScanFail : Bool
deriving DecidableEq

/-- The oracle of a store with no failures. -/
def noFail : FailOracle := ⟨false, false, false, false⟩

def getCodeE (st : Store) (o : FailOracle) (s : String) : Except DBError (Option AccessCode) :=
  if o.getCodeFail then .error .storeError else .ok (findCode st s)

def getUserE (st : Store) (o : FailOracle) (uid : Nat) : Except DBError (Option User) :=
  if o.getUserFail then .error .storeError else .ok (findUser st uid)

/-- getUserCodes(userId, type) (lines 410-431): the userId-index query
filtered per type/isActive; on an index error, a caught full-scan fallback
filtered on userId and isActive; on a second error, the empty list.  The
function itself never throws. -/
def getUserCodesM (st : Store) (o : FailOracle) (uid : Nat) (ty : Option String) :
    List AccessCode :=
  if o.codesIndexFail = false then
    let codes := st.codes.filter (fun c => c.userId == uid)
    match ty with
    | some t => codes.filter (fun c => c.type == t && c.isActive)
    | none => codes.filter (fun c => c.isActive)
  else if o.codesScanFail = false then
    let userCodes := st.codes.filter (fun c => c.userId == uid && c.isActive)
    match ty with
    | some t => userCodes.filter (fun c => c.type == t)
    | none => userCodes
  else []

/-- JavaScript truthiness of the nullable parsed expiry; 0 is falsy. -/
def truthyExpiry : Option Int → Bool
  | some t => decide (t ≠ 0)
  | none => false

/-- Line 365: if (expiryDate && expiryDate < now). -/
def expiredCheck (e : Option Int) (now : Int) : Bool :=
  match e with
  | some t => decide (t ≠ 0) && decide (t < now)
  | none => false

/-- Line 378: const until = expiryDate || (now + 180 * 24 * 60 * 60 * 1000). -/
def untilVal (e : Option Int) (now : Int) : Int :=
  match e with
  | some t => if t ≠ 0 then t else now + 15552000000
  | none => now + 15552000000

/-- Lines 380-386, the tier derivation, including the JavaScript operator
precedence of the second condition,
(user.product && user.product.includes('سنوي')) || user.product.includes('Yearly'),
whose right operand throws a TypeError when product is null/undefined. -/
def tierE (p : Option String) : Except DBError String :=
  if (match p with | some q => !(q == "") && strIncludes q "6" | none => false) then
    .ok "Pro-6"
  else if (match p with | some q => !(q == "") && strIncludes q "سنوي" | none => false) then
    .ok "Pro-12"
  else
    match p with
    | none => .error .jsTypeError
    | some q => if strIncludes q "Yearly" then .ok "Pro-12" else .ok "Basic-3"

/-- The payload of a successful verification (lines 397-402). -/
structure Payload where
  userId : Nat
  name : String
  email : String
  product : Option String
deriving DecidableEq

/-- The verification outcome: failure m is the object ok: false,
message: m; success carries role, until, tier, codes.admin, codes.viewer
and the payload (lines 388-403). -/
inductive VResult where
  | failure (message : String)
  | success (role : String) (untilMs : Int) (tier : String)
      (adminCode viewerCode : String) (payload : Payload)
deriving DecidableEq

/-- The body of verifyCode inside its try block (lines 348-403): any
error escaping here is what the catch block sees. -/
def verifyCodeBody (st : Store) (o : FailOracle) (now : Int) (s : String) :
    Except DBError VResult :=
  match getCodeE st o s with
  | .error e => .error e
  | .ok code? =>
    match code? with
    | none => .ok (.failure "INVALID")
    | some code =>
      if code.isActive = false then .ok (.failure "INVALID")
      else
        match getUserE st o code.userId with
        | .error e => .error e
        | .ok none => .ok (.failure "USER_NOT_FOUND")
        | .ok (some user) =>
          if expiredCheck user.expiry now then .ok (.failure "EXPIRED")
          else
            let userCodes := getUserCodesM st o code.userId none
            let adminCode := userCodes.find? (fun c => c.type == "admin" && c.isActive)
            let viewerCode := userCodes.find? (fun c => c.type == "viewer" && c.isActive)
            let role := if code.type = "admin" then "admin" else "viewer"
            match tierE user.product with
            | .error e => .error e
            | .ok tier =>
              .ok (.success role (untilVal user.expiry now) tier
                (match adminCode with | some c => c.code | none => "")
                (match viewerCode with | some c => c.code | none => "")
                ⟨user.id, user.name, user.email, user.product⟩)

/-- verifyCode (lines 343-408): the try/catch wrapper; every thrown error
becomes the generic failure object with message ERROR. -/
def verifyCode (st : Store) (o : FailOracle) (now : Int) (s : String) : VResult :=
  match verifyCodeBody st o now s with
  | .ok r => r
  | .error _ => .failure "ERROR"

/-- The until field of a verification result, when it is a success. -/
def VResult.untilOf : VResult → Option Int
  | .success _ u _ _ _ _ => some u
  | .failure _ => none

/-! ## The lifecycle manager (generateCodesForUser, lines 455-555) -/

/-- The deactivation loop (lines 463-468): for each previously loaded code,
if it is active, updateCode(id, isActive false). -/
def deactivateLoop : Store → List AccessCode → Except DBError Store
  | st, [] => .ok st
  | st, c :: rest =>
    if c.isActive then
      match updateCodeActive st c.id false with
      | .error e => .error e
      | .ok st1 => deactivateLoop st1 rest
    else deactivateLoop st rest

/-- One do-while uniqueness loop (lines 476-481 / 485-490): fuel is
maxAttempts - attempts, so the initial call has fuel 10.  Each iteration
generates the candidate of the current attempt and probes getCode; a miss
breaks out with that candidate, and on a hit the loop repeats while
attempts + 1 < maxAttempts, i.e. while fuel is at least 2.  With fuel
below 2 the iteration returns its candidate either way (the final probe
cannot change the returned value), so the candidate is returned directly;
an exhausted budget thus yields the last, possibly colliding, candidate. -/
def pickCode (st : Store) (cands : Nat → String) : Nat → Nat → String
  | attempts, fuel + 2 =>
    if (findCode st (cands attempts)).isNone then cands attempts
    else pickCode st cands (attempts + 1) (fuel + 1)
  | attempts, _ => cands attempts

/-- The write phase of generateCodesForUser (lines 461-505): deactivate the
user's active codes, choose an admin and a viewer candidate (both probed
against the post-deactivation store), then persist both as active. -/
def gcfuWrite (st : Store) (ac vc : Nat → String) (uid : Nat) :
    Except DBError (Store × String × String × Nat × Nat) :=
  match deactivateLoop st (activeCodesOf st uid) with
  | .error e => .error e
  | .ok st1 =>
    match addCode st1 uid (pickCode st1 ac 0 10) "admin" with
    | .error e => .error e
    | .ok (st2, admId) =>
      match addCode st2 uid (pickCode st1 vc 0 10) "viewer" with
      | .error e => .error e
      | .ok (st3, vwrId) =>
        .ok (st3, pickCode st1 ac 0 10, pickCode st1 vc 0 10, admId, vwrId)

/-- Which read-back requests see the just-written records (lines 510-526):
adm1/vwr1 the first lookups by code string, admById/vwrById the fallback
primary-key lookups, adm2/vwr2 the one retried lookup by code string after
the additional delay.  A false flag models the store acknowledging the
write before it is queryable. -/
structure RBOracle where
  adm1 : Bool
  vwr1 : Bool
  admById : Bool
  vwrById : Bool
  adm2 : Bool
  vwr2 : Bool
deriving DecidableEq

/-- The verification read-back (lines 510-539): look both codes up by
string, fall back to the assigned key when a string lookup misses, and if
either is still missing retry both string lookups once; if either is still
missing after the retry, throw (persistenceVerificationFailed). -/
def readBack (st3 : Store) (adm vwr : String) (admId vwrId : Nat) (rb : RBOracle) :
    Except DBError Unit :=
  let va0 := if rb.adm1 then findCode st3 adm else none
  let vv0 := if rb.vwr1 then findCode st3 vwr else none
  let va1 := match va0 with
             | none => if rb.admById then findById st3 admId else none
             | some c => some c
  let vv1 := match vv0 with
             | none => if rb.vwrById then findById st3 vwrId else none
             | some c => some c
  if va1.isNone || vv1.isNone then
    let va2 := if rb.adm2 then findCode st3 adm else none
    let vv2 := if rb.vwr2 then findCode st3 vwr else none
    if va2.isNone || vv2.isNone then .error .persistenceVerificationFailed
    else .ok ()
  else .ok ()

/-- generateCodesForUser (lines 455-555): the write phase followed by the
read-back; on success the pair of new code strings is returned (the store
resulting from the writes is carried alongside in this embedding). -/
def generateCodesForUser (st : Store) (ac vc : Nat → String) (rb : RBOracle) (uid : Nat) :
    Except DBError (Store × String × String) :=
  match gcfuWrite st ac vc uid with
  | .error e => .error e
  | .ok (st3, adm, vwr, admId, vwrId) =>
    match readBack st3 adm vwr admId vwrId rb with
    | .error e => .error e
    | .ok _ => .ok (st3, adm, vwr)

/-! ## Well-formedness of a store (what IndexedDB guarantees structurally:
distinct auto-increment keys, all below the next key). -/

/-- Distinctness of the primary keys of the codes collection. -/
def distinctIds : List AccessCode → Bool
  | [] => true
  | c :: t => t.all (fun d => !(d.id == c.id)) && distinctIds t

/-- Store well-formedness for the codes collection. -/
def Store.wfCodes (st : Store) : Bool :=
  distinctIds st.codes && st.codes.all (fun c => decide (c.id < st.nextCodeId))

/-! ## Specification-side definitions (worded from the spec, to be compared
with the implementation) -/

/-- Tier derivation as the spec words it: first match wins among
"contains the digit 6" (Pro-6), then "contains Yearly or its localised
equivalent" (Pro-12), else Basic-3. -/
def specTier (p : String) : String :=
  if strIncludes p "6" then "Pro-6"
  else if strIncludes p "Yearly" || strIncludes p "سنوي" then "Pro-12"
  else "Basic-3"

/-- The currently active code string of a given type for a user, empty
string when none is active, as the spec words the codes field of a
successful verification. -/
def specCodeOf (st : Store) (uid : Nat) (ty : String) : String :=
  match st.codes.find? (fun c => c.userId == uid && c.type == ty && c.isActive) with
  | some c => c.code
  | none => ""

/-! ## Concrete fixtures used by witnesses and counterexamples -/

/-- A user whose expiryDate is the epoch instant: the raw field is a
non-null date string, and new Date(...).getTime() is 0. -/
def uEpoch : User := ⟨1, "n", "e", some "Plan-3", some 0⟩

/-- Store owning one active admin code for uEpoch. -/
def stEpoch : Store := ⟨[uEpoch], [⟨1, 1, "ADM-ZERO0000", "admin", true⟩], 2⟩

/-- A user whose product field is null/undefined. -/
def uNullProd : User := ⟨1, "n", "e", none, none⟩

/-- Store owning one active viewer code for uNullProd. -/
def stNullProd : Store := ⟨[uNullProd], [⟨1, 1, "VWR-AAAA1111", "viewer", true⟩], 2⟩

/-- Store whose only code record for user 1 is inactive. -/
def stInactive : Store := ⟨[uNullProd], [⟨1, 1, "ADM-DEADDEAD", "admin", false⟩], 2⟩

/-- Store with one active and one inactive code for user 1. -/
def stMixed : Store :=
  ⟨[uNullProd],
   [⟨1, 1, "ADM-OLDOLD11", "admin", true⟩, ⟨2, 1, "VWR-OLDOLD11", "viewer", false⟩], 3⟩

/-- Store already containing the constant candidate every retry proposes. -/
def stDup : Store := ⟨[], [⟨1, 7, "DUP", "admin", true⟩], 2⟩

/-- The empty store. -/
def stEmpty : Store := ⟨[], [], 1⟩

/-- A user on a product containing the digit 6, with no expiry. -/
def uPro6 : User := ⟨1, "n", "e", some "Plan-6-Premium", none⟩

/-- Store owning one active admin code for uPro6. -/
def stPro6 : Store := ⟨[uPro6], [⟨1, 1, "ADM-SIXSIX66", "admin", true⟩], 2⟩

/-- A user with a future expiry. -/
def uFuture : User := ⟨1, "n", "e", some "Plan-3", some 99999999999999⟩

/-- Store owning an active admin and an active viewer code for uFuture. -/
def stFuture : Store :=
  ⟨[uFuture],
   [⟨1, 1, "ADM-FUTFUT11", "admin", true⟩, ⟨2, 1, "VWR-FUTFUT11", "viewer", true⟩], 3⟩

/-- A user whose expiry is strictly in the past (and nonzero). -/
def uPast : User := ⟨1, "n", "e", some "Plan-3", some 5⟩

/-- Store owning one active admin code for uPast. -/
def stPast : Store := ⟨[uPast], [⟨1, 1, "ADM-PASTPAST", "admin", true⟩], 2⟩

/-- The read-back oracle of a store where every read-back request hits. -/
def rbAll : RBOracle := ⟨true, true, true, true, true, true⟩

/-- The read-back oracle of a store where every read-back request misses. -/
def rbNone : RBOracle := ⟨false, false, false, false, false, false⟩

/-- An oracle whose first verifier lookup (getCode) rejects. -/
def oGetCodeFail : FailOracle := ⟨true, false, false, false⟩

/-- Boolean membership of a key in a key list (used to describe the net
effect of the deactivation and deletion loops). -/
def idMem (i : Nat) : List Nat → Bool
  | [] => false
  | j :: t => i == j || idMem i t

/-- Deactivate a record exactly when its key is in the given list (the
pointwise effect of the deactivation loop on the codes collection). -/
def setInactiveIds (ids : List Nat) (c : AccessCode) : AccessCode :=
  if idMem c.id ids then { c with isActive := false } else c

/-- A candidate stream proposing the same admin code at every attempt. -/
def candsAdm : Nat → String := fun _ => "ADM-AAAAAAAA"

/-- A candidate stream proposing the same viewer code at every attempt. -/
def candsVwr : Nat → String := fun _ => "VWR-AAAAAAAA"

/-- A candidate stream proposing the already-taken string DUP forever. -/
def candsDup : Nat → String := fun _ => "DUP"

/-- The store stMixed after regenerating user 1 with candsAdm/candsVwr:
the old active admin code is deactivated, the old inactive viewer code is
untouched, and the two new active codes are appended. -/
def stMixedAfter : Store :=
  ⟨[uNullProd],
   [⟨1, 1, "ADM-OLDOLD11", "admin", false⟩, ⟨2, 1, "VWR-OLDOLD11", "viewer", false⟩,
    ⟨3, 1, "ADM-AAAAAAAA", "admin", true⟩, ⟨4, 1, "VWR-AAAAAAAA", "viewer", true⟩], 5⟩

/-! # Theorems -/

/-! ## String and base-36 helper lemmas -/

theorem string_data_append (a b : String) : (a ++ b).data = a.data ++ b.data := by
  cases a
  cases b
  rfl

theorem b36digit_upper_ok : ∀ d, d < 36 → isB36UpperChar (Char.toUpper (b36digit d)) = true := by
  decide

theorem natToB36Aux_mem (fuel : Nat) :
    ∀ n, ∀ c ∈ natToB36Aux fuel n, ∃ d, d < 36 ∧ c = b36digit d := by
  induction fuel with
  | zero => intro n c h; simp [natToB36Aux] at h
  | succ f ih =>
    intro n c h
    rcases Nat.lt_or_ge n 36 with h36 | h36
    · rw [natToB36Aux, if_pos h36] at h
      simp only [List.mem_singleton] at h
      exact ⟨n, h36, h⟩
    · rw [natToB36Aux, if_neg (Nat.not_lt.mpr h36)] at h
      rcases List.mem_append.mp h with h | h
      · exact ih _ c h
      · simp only [List.mem_singleton] at h
        exact ⟨n % 36, Nat.mod_lt _ (by norm_num), h⟩

theorem natToB36Aux_len (fuel : Nat) :
    ∀ n k, 36 ^ k ≤ n → n < fuel → k + 1 ≤ (natToB36Aux fuel n).length := by
  induction fuel with
  | zero => intro n k _ h; omega
  | succ f ih =>
    intro n k hk hn
    rcases Nat.lt_or_ge n 36 with h36 | h36
    · have hk0 : k = 0 := by
        by_contra hne
        have h1 : (36 : Nat) ^ 1 ≤ 36 ^ k := Nat.pow_le_pow_right (by norm_num) (by omega)
        simp at h1
        omega
      subst hk0
      rw [natToB36Aux, if_pos h36]
      simp
    · rw [natToB36Aux, if_neg (Nat.not_lt.mpr h36), List.length_append]
      cases k with
      | zero => simp
      | succ j =>
        have h1 : 36 ^ j ≤ n / 36 := by
          rw [Nat.le_div_iff_mul_le (by norm_num)]
          calc 36 ^ j * 36 = 36 ^ (j + 1) := by rw [pow_succ]
            _ ≤ n := hk
        have h2 : n / 36 < f := by
          have := Nat.div_lt_self (show 0 < n by omega) (show 1 < 36 by norm_num)
          omega
        have := ih (n / 36) j h1 h2
        simp only [List.length_singleton]
        omega

theorem fracB36Aux_mem (fuel : Nat) :
    ∀ num, num < 2 ^ 53 → ∀ c ∈ fracB36Aux fuel num, ∃ d, d < 36 ∧ c = b36digit d := by
  induction fuel with
  | zero => intro num _ c h; simp [fracB36Aux] at h
  | succ f ih =>
    intro num hnum c h
    rcases eq_or_ne num 0 with h0 | h0
    · rw [fracB36Aux, if_pos h0] at h
      simp at h
    · rw [fracB36Aux, if_neg h0] at h
      rcases List.mem_cons.mp h with h | h
      · refine ⟨num * 36 / 2 ^ 53, ?_, h⟩
        have h2 : num * 36 < 2 ^ 53 * 36 :=
          (mul_lt_mul_right (show (0 : Nat) < 36 by norm_num)).mpr hnum
        exact Nat.div_lt_of_lt_mul h2
      · exact ih _ (Nat.mod_lt _ (by positivity)) c h

theorem matches_of_parts (s : String) (p t r : List Char) (hs : s.data = p ++ t ++ r)
    (hp : p = "ADM-".data ∨ p = "VWR-".data) (ht : t.length = 4) (hrl : r.length = 4)
    (hct : ∀ c ∈ t, isB36UpperChar c = true) (hcr : ∀ c ∈ r, isB36UpperChar c = true) :
    matchesCodePattern s = true := by
  have hp4 : p.length = 4 := by rcases hp with h | h <;> subst h <;> rfl
  unfold matchesCodePattern
  rw [hs, List.append_assoc]
  have htake : (p ++ (t ++ r)).take 4 = p := by
    rw [← hp4]
    exact List.take_left p (t ++ r)
  have hdrop : (p ++ (t ++ r)).drop 4 = t ++ r := by
    rw [← hp4]
    exact List.drop_left p (t ++ r)
  have hlen : (p ++ (t ++ r)).length = 12 := by
    simp [List.length_append, hp4, ht, hrl]
  rw [htake, hdrop, hlen]
  have hall : (t ++ r).all isB36UpperChar = true := by
    simp only [List.all_append, Bool.and_eq_true]
    exact ⟨List.all_eq_true.mpr hct, List.all_eq_true.mpr hcr⟩
  rcases hp with h | h <;> subst h <;> simp [hall]

/-! ## Claim C2 -/

/--
C2 counterexample: the claim quantifies over every entropy value, but for
the entropy 2^52 (Math.random() = 0.5, whose base-36 string is "0.i") the
random fragment produced by substring(2, 6) is the single character "I",
so generateCode returns the 9-character string "ADM-3V28I", which does
not match (ADM|VWR)-[A-Z0-9] with 8 tail characters, even at a realistic
clock value.
-/
theorem generateCode_short_cex :
    generateCode "admin" 1700000000000 (2 ^ 52) = "ADM-3V28I" ∧
    matchesCodePattern (generateCode "admin" 1700000000000 (2 ^ 52)) = false := by
  constructor
  · decide
  · decide

/--
C2 (amended): for every role string, every clock value of at least 36^3
milliseconds (true of every realistic timestamp), and every entropy
numerator k < 2^53 whose base-36 string has at least 4 fractional digits
(length at least 6 counting the "0." head), the generated code matches
(ADM|VWR)-[A-Z0-9] with exactly 8 tail characters: prefix ADM- when the
role is admin and VWR- otherwise, then the last 4 base-36 characters of
the timestamp and 4 random base-36 characters, upper-cased.  The claim as
frozen omits the two length-side conditions and is refuted by
generateCode_short_cex.
-/
theorem generateCode_matches_pattern (ty : String) (nowMs rand : Nat)
    (hts : 36 ^ 3 ≤ nowMs) (hrand : rand < 2 ^ 53)
    (hlen : 6 ≤ (jsNumToB36 rand).data.length) :
    matchesCodePattern (generateCode ty nowMs rand) = true := by
  have hT4 : (sUpper (sliceLast4 (natToB36 nowMs))).data.length = 4 := by
    have hL : 4 ≤ (natToB36Aux (nowMs + 1) nowMs).length := by
      have := natToB36Aux_len (nowMs + 1) nowMs 3 hts (Nat.lt_succ_self nowMs)
      omega
    simp only [sUpper, sliceLast4, natToB36, List.length_map, List.length_drop]
    omega
  have hTmem : ∀ c ∈ (sUpper (sliceLast4 (natToB36 nowMs))).data, isB36UpperChar c = true := by
    intro c hc
    simp only [sUpper, sliceLast4, natToB36, List.mem_map] at hc
    obtain ⟨c0, hc0, rfl⟩ := hc
    have hc1 : c0 ∈ natToB36Aux (nowMs + 1) nowMs := List.mem_of_mem_drop hc0
    obtain ⟨d, hd, rfl⟩ := natToB36Aux_mem _ _ c0 hc1
    exact b36digit_upper_ok d hd
  have hrand0 : rand ≠ 0 := by
    intro h0
    rw [h0] at hlen
    simp [jsNumToB36] at hlen
  have hfrac : (jsNumToB36 rand).data = '0' :: '.' :: fracB36Aux 60 rand := by
    rw [jsNumToB36, if_neg hrand0]
  have hdsl : 4 ≤ (fracB36Aux 60 rand).length := by
    rw [hfrac] at hlen
    simp only [List.length_cons] at hlen
    omega
  have hR4 : (sUpper (jsSubstr (jsNumToB36 rand) 2 6)).data.length = 4 := by
    simp only [sUpper, jsSubstr, List.length_map, List.length_take, hfrac, List.drop_succ_cons,
      List.drop_zero]
    omega
  have hRmem : ∀ c ∈ (sUpper (jsSubstr (jsNumToB36 rand) 2 6)).data, isB36UpperChar c = true := by
    intro c hc
    simp only [sUpper, jsSubstr, List.mem_map, hfrac, List.drop_succ_cons, List.drop_zero] at hc
    obtain ⟨c0, hc0, rfl⟩ := hc
    have hc1 : c0 ∈ fracB36Aux 60 rand := List.mem_of_mem_take hc0
    obtain ⟨d, hd, rfl⟩ := fracB36Aux_mem _ _ hrand c0 hc1
    exact b36digit_upper_ok d hd
  have hsplit : (generateCode ty nowMs rand).data =
      ((if ty = "admin" then "ADM" else "VWR") ++ "-").data ++
        (sUpper (sliceLast4 (natToB36 nowMs))).data ++
        (sUpper (jsSubstr (jsNumToB36 rand) 2 6)).data := by
    simp only [generateCode, string_data_append]
  refine matches_of_parts _ _ _ _ hsplit ?_ hT4 hR4 hTmem hRmem
  by_cases hty : ty = "admin"
  · left
    rw [if_pos hty]
    decide
  · right
    rw [if_neg hty]
    decide

/--
C2 witness: at the clock value 1700000000000 and entropy numerator 1 the
hypotheses of generateCode_matches_pattern hold and the generated string
matches the pattern.
-/
theorem generateCode_matches_witness :
    matchesCodePattern (generateCode "admin" 1700000000000 1) = true :=
  generateCode_matches_pattern "admin" 1700000000000 1 (by decide) (by decide) (by decide)

/-! ## List helper lemmas for the verifier -/

theorem find?_filter_eq (l : List AccessCode) (p q : AccessCode → Bool) :
    (l.filter p).find? q = l.find? (fun a => p a && q a) := by
  induction l with
  | nil => rfl
  | cons a t ih =>
    by_cases hp : p a
    · by_cases hq : q a <;> simp [List.filter_cons, List.find?_cons, hp, hq, ih]
    · simp [List.filter_cons, List.find?_cons, hp, ih]

theorem find?_congr_pred (l : List AccessCode) (p q : AccessCode → Bool)
    (h : ∀ a, p a = q a) : l.find? p = l.find? q := by
  induction l with
  | nil => rfl
  | cons a t ih =>
    simp only [List.find?_cons, h a, ih]

/-- The admin/viewer code the verifier picks from getUserCodes equals the
spec-side first active code of that type for the user. -/
theorem verifier_pick_eq_spec (st : Store) (uid : Nat) (ty : String) :
    (match (getUserCodesM st noFail uid none).find? (fun c => c.type == ty && c.isActive) with
     | some c => c.code
     | none => "") = specCodeOf st uid ty := by
  have h1 : (getUserCodesM st noFail uid none).find? (fun c => c.type == ty && c.isActive)
      = st.codes.find? (fun c => c.userId == uid && c.type == ty && c.isActive) := by
    show ((st.codes.filter (fun c => c.userId == uid)).filter (fun c => c.isActive)).find?
        (fun c => c.type == ty && c.isActive) = _
    rw [find?_filter_eq, find?_filter_eq]
    apply find?_congr_pred
    intro a
    cases ha : a.isActive <;> cases hu : a.userId == uid <;> cases ht : a.type == ty <;>
      simp [ha, hu, ht]
  rw [h1]
  rfl

/-- The implementation tier computation agrees with the spec-side
derivation on every product string (including the falsy empty string,
where both fall through to Basic-3). -/
theorem tierE_some (p : String) : tierE (some p) = .ok (specTier p) := by
  by_cases hpe : p = ""
  · subst hpe
    decide
  · have hb : (p == "") = false := by simp [hpe]
    unfold tierE specTier
    simp only [hb, Bool.not_false, Bool.true_and]
    by_cases h6 : strIncludes p "6" <;>
      by_cases hy : strIncludes p "Yearly" <;>
        by_cases ha : strIncludes p "سنوي" <;>
          simp [h6, hy, ha]

/-- Inversion of a successful verification: the until field is the
implementation's untilVal, the tier came from tierE, and the companion
code fields are the user's first active admin/viewer code strings. -/
theorem verify_success_inv (st : Store) (now : Int) (s : String) (c : AccessCode) (u : User)
    (role : String) (untilMs : Int) (tier : String) (ac vc : String) (pay : Payload)
    (hc : findCode st s = some c) (hu : findUser st c.userId = some u)
    (hres : verifyCode st noFail now s = .success role untilMs tier ac vc pay) :
    untilMs = untilVal u.expiry now ∧
    tierE u.product = .ok tier ∧
    ac = specCodeOf st c.userId "admin" ∧
    vc = specCodeOf st c.userId "viewer" := by
  unfold verifyCode at hres
  cases hbody : verifyCodeBody st noFail now s with
  | error e => rw [hbody] at hres; simp at hres
  | ok r =>
    rw [hbody] at hres
    subst hres
    unfold verifyCodeBody at hbody
    rw [show getCodeE st noFail s = Except.ok (findCode st s) from rfl, hc] at hbody
    by_cases hact : c.isActive = false
    · simp [hact] at hbody
    · simp only [hact, if_false] at hbody
      rw [show getUserE st noFail c.userId = Except.ok (findUser st c.userId) from rfl, hu]
        at hbody
      cases hexp : expiredCheck u.expiry now
      · simp only [hexp, if_false] at hbody
        cases htier : tierE u.product with
        | error e => simp [htier] at hbody
        | ok tv =>
          simp only [htier] at hbody
          simp at hbody
          obtain ⟨hrole, huntil, htv, hac, hvc, hpay⟩ := hbody
          refine ⟨huntil.symm, ?_, ?_, ?_⟩
          · rw [htv]
          · rw [← hac, verifier_pick_eq_spec]
          · rw [← hvc, verifier_pick_eq_spec]
      · simp [hexp] at hbody

/-! ## Claim C4 -/

/--
C4: whenever verification of a code succeeds and the owning user's
product field is a string p, the reported tier is exactly the spec's
first-match-wins derivation over p: Pro-6 when p contains "6", else
Pro-12 when p contains "Yearly" or "سنوي", else Basic-3 (so in
particular "Plan-6-Premium" gives Pro-6, "Yearly Plan" gives Pro-12 and
"Plan-3" gives Basic-3).
-/
theorem verify_tier_follows_spec (st : Store) (now : Int) (s : String) (c : AccessCode)
    (u : User) (p : String) (role : String) (untilMs : Int) (tier : String)
    (ac vc : String) (pay : Payload)
    (hc : findCode st s = some c) (hu : findUser st c.userId = some u)
    (hp : u.product = some p)
    (hres : verifyCode st noFail now s = .success role untilMs tier ac vc pay) :
    tier = specTier p := by
  obtain ⟨-, htier, -, -⟩ :=
    verify_success_inv st now s c u role untilMs tier ac vc pay hc hu hres
  rw [hp, tierE_some] at htier
  exact (Except.ok.inj htier).symm

/--
C4 witness: a concrete store whose user is on "Plan-6-Premium"; its
active admin code verifies successfully with tier Pro-6, and the theorem
identifies that tier with the spec derivation.
-/
theorem verify_tier_follows_spec_witness : "Pro-6" = specTier "Plan-6-Premium" :=
  verify_tier_follows_spec stPro6 5 "ADM-SIXSIX66" ⟨1, 1, "ADM-SIXSIX66", "admin", true⟩
    uPro6 "Plan-6-Premium" "admin" 15552000005 "Pro-6" "ADM-SIXSIX66" ""
    ⟨1, "n", "e", some "Plan-6-Premium"⟩ (by decide) (by decide) rfl (by decide)

/-! ## Claim C5 -/

/--
C5 counterexample: the claim says every active code whose owning user has
a non-null expiryDate strictly before the current instant verifies as
Expired and never as Success.  For the user whose expiryDate is the epoch
instant (raw field non-null, parsed value 0, which IS strictly before the
current instant 1000000) the truthiness guard expiryDate && expiryDate < now
skips the check and the verification SUCCEEDS.
-/
theorem verify_expired_epoch_cex :
    uEpoch.expiry = some 0 ∧ (0 : Int) < 1000000 ∧
    verifyCode stEpoch noFail 1000000 "ADM-ZERO0000" =
      .success "admin" 15553000000 "Basic-3" "ADM-ZERO0000" ""
        ⟨1, "n", "e", some "Plan-3"⟩ := by
  exact ⟨rfl, by decide, by decide⟩

/--
C5 (amended): for every active code whose owning user exists and has a
non-null expiryDate parsing to a NONZERO millisecond value strictly
before the current instant, verifyCode returns the EXPIRED failure (and
hence never Success).  The claim as frozen also covers the parsed value
0 (the epoch instant), where the JavaScript truthiness guard skips the
expiry check; that case is refuted by verify_expired_epoch_cex.
-/
theorem verify_expired_of_past (st : Store) (now : Int) (s : String) (c : AccessCode)
    (u : User) (t : Int)
    (hc : findCode st s = some c) (hact : c.isActive = true)
    (hu : findUser st c.userId = some u) (he : u.expiry = some t)
    (ht0 : t ≠ 0) (ht : t < now) :
    verifyCode st noFail now s = .failure "EXPIRED" := by
  have hexp : expiredCheck u.expiry now = true := by
    rw [he]
    simp [expiredCheck, ht0, ht]
  unfold verifyCode verifyCodeBody
  rw [show getCodeE st noFail s = Except.ok (findCode st s) from rfl, hc]
  simp only [hact]
  rw [show getUserE st noFail c.userId = Except.ok (findUser st c.userId) from rfl, hu]
  simp [hexp]

/--
C5 witness: a concrete store whose user expired at t = 5; at the current
instant 10 the active admin code verifies as EXPIRED.
-/
theorem verify_expired_of_past_witness :
    verifyCode stPast noFail 10 "ADM-PASTPAST" = .failure "EXPIRED" :=
  verify_expired_of_past stPast 10 "ADM-PASTPAST" ⟨1, 1, "ADM-PASTPAST", "admin", true⟩
    uPast 5 (by decide) rfl (by decide) rfl (by decide) (by decide)

/-! ## Claim C6 -/

/--
C6 counterexample: the claim says the until field of a Success equals the
owning user's expiryDate whenever that field is present.  For the user
whose expiryDate is present and parses to 0 the truthiness fallback
expiryDate || (now + 180 days) discards it: verification succeeds with
until = 1000000 + 15552000000, not 0.
-/
theorem verify_until_epoch_cex :
    uEpoch.expiry = some 0 ∧
    (verifyCode stEpoch noFail 1000000 "ADM-ZERO0000").untilOf = some 15553000000 ∧
    (verifyCode stEpoch noFail 1000000 "ADM-ZERO0000").untilOf ≠ some 0 := by
  refine ⟨rfl, by decide, by decide⟩

/--
C6 (amended): on every successful verification the until field equals
the owning user's expiryDate when that field is present AND parses to a
nonzero value, and otherwise (absent, or present but equal to the epoch
instant 0, which the JavaScript truthiness fallback discards — see
verify_until_epoch_cex) equals the current time plus 180 days
(15552000000 ms); and the codes field carries the user's currently
active admin and viewer code strings, empty string for a role with no
active code.
-/
theorem verify_until_and_codes (st : Store) (now : Int) (s : String) (c : AccessCode)
    (u : User) (role : String) (untilMs : Int) (tier : String) (ac vc : String)
    (pay : Payload)
    (hc : findCode st s = some c) (hu : findUser st c.userId = some u)
    (hres : verifyCode st noFail now s = .success role untilMs tier ac vc pay) :
    untilMs = (match u.expiry with
               | some t => if t ≠ 0 then t else now + 15552000000
               | none => now + 15552000000) ∧
    ac = specCodeOf st c.userId "admin" ∧
    vc = specCodeOf st c.userId "viewer" := by
  obtain ⟨huntil, -, hac, hvc⟩ :=
    verify_success_inv st now s c u role untilMs tier ac vc pay hc hu hres
  exact ⟨huntil, hac, hvc⟩

/--
C6 witness: a user with future expiry 99999999999999 and both an active
admin and an active viewer code; the successful verification carries
until = 99999999999999 and both active code strings.
-/
theorem verify_until_and_codes_witness :
    (99999999999999 : Int) = (match uFuture.expiry with
               | some t => if t ≠ 0 then t else (7 : Int) + 15552000000
               | none => (7 : Int) + 15552000000) ∧
    "ADM-FUTFUT11" = specCodeOf stFuture 1 "admin" ∧
    "VWR-FUTFUT11" = specCodeOf stFuture 1 "viewer" :=
  verify_until_and_codes stFuture 7 "ADM-FUTFUT11" ⟨1, 1, "ADM-FUTFUT11", "admin", true⟩
    uFuture "admin" 99999999999999 "Basic-3" "ADM-FUTFUT11" "VWR-FUTFUT11"
    ⟨1, "n", "e", some "Plan-3"⟩ (by decide) (by decide) (by decide)

/-! ## Claim C9 -/

/--
C9: verifyCode is fail-closed.  For every store, failure oracle, instant
and input string, either the try-block body computed a result and
verifyCode returns exactly it, or the body raised some error and
verifyCode returns the generic Invalid-shaped failure with message
ERROR; moreover when the very first lookup (getCode) rejects, the result
is that generic failure.  In particular verifyCode is a total function
into verification results: no lookup failure escapes as an exception.
-/
theorem verify_fail_closed (st : Store) (o : FailOracle) (now : Int) (s : String) :
    (verifyCodeBody st o now s = .ok (verifyCode st o now s) ∨
      verifyCode st o now s = .failure "ERROR") ∧
    (o.getCodeFail = true → verifyCode st o now s = .failure "ERROR") := by
  constructor
  · unfold verifyCode
    cases hbody : verifyCodeBody st o now s with
    | ok r => exact Or.inl rfl
    | error e => exact Or.inr rfl
  · intro hg
    unfold verifyCode verifyCodeBody getCodeE
    rw [hg]
    simp

/--
C9 witness: on the empty store with an oracle whose getCode request
rejects, verification of any string returns the generic ERROR failure.
-/
theorem verify_fail_closed_witness :
    verifyCode stEmpty oGetCodeFail 0 "X" = .failure "ERROR" :=
  (verify_fail_closed stEmpty oGetCodeFail 0 "X").2 rfl

/-! ## Claim C10 -/

/--
C10: for every active code whose owning user exists, is not caught by
the expiry check, and has a null/undefined product field, verifyCode
returns the generic failure with message ERROR rather than a Success
with the default tier: the right operand of the (a && b) || c condition
of the Pro-12 branch calls includes on the missing product, and the
resulting TypeError is swallowed by the catch-all handler.
-/
theorem verify_null_product_error (st : Store) (now : Int) (s : String) (c : AccessCode)
    (u : User)
    (hc : findCode st s = some c) (hact : c.isActive = true)
    (hu : findUser st c.userId = some u) (hp : u.product = none)
    (hexp : expiredCheck u.expiry now = false) :
    verifyCode st noFail now s = .failure "ERROR" := by
  unfold verifyCode verifyCodeBody
  rw [show getCodeE st noFail s = Except.ok (findCode st s) from rfl, hc]
  simp only [hact]
  rw [show getUserE st noFail c.userId = Except.ok (findUser st c.userId) from rfl, hu]
  simp [hexp, hp, tierE]

/--
C10 witness: the store whose user has a null product and an active
viewer code; verification of that code returns the ERROR failure.
-/
theorem verify_null_product_error_witness :
    verifyCode stNullProd noFail 5 "VWR-AAAA1111" = .failure "ERROR" :=
  verify_null_product_error stNullProd 5 "VWR-AAAA1111"
    ⟨1, 1, "VWR-AAAA1111", "viewer", true⟩ uNullProd (by decide) rfl (by decide) rfl rfl

/-! ## Claim C7 -/

/-- When every probed candidate in the window collides, the loop walks
the whole budget and returns the last generated candidate. -/
theorem pickCode_exhaust (st : Store) (cands : Nat → String) :
    ∀ f a, 1 ≤ f → (∀ i, a ≤ i → i < a + f → (findCode st (cands i)).isSome) →
      pickCode st cands a f = cands (a + f - 1) := by
  intro f
  induction f with
  | zero => intro a h; omega
  | succ g ih =>
    intro a _ hall
    have hsome : (findCode st (cands a)).isSome := hall a (le_refl a) (by omega)
    have hnone : (findCode st (cands a)).isNone = false := by
      cases h : findCode st (cands a)
      · rw [h] at hsome; simp at hsome
      · rfl
    cases g with
    | zero => simp [pickCode]
    | succ g2 =>
      show pickCode st cands a (g2 + 2) = cands (a + (g2 + 2) - 1)
      have hrec := ih (a + 1) (by omega)
        (fun i h1 h2 => hall i (by omega) (by omega))
      simp only [pickCode, hnone, Bool.false_eq_true, if_false]
      rw [hrec]
      congr 1
      omega

/-- The loop returns a candidate generated within the attempt budget. -/
theorem pickCode_bounded (st : Store) (cands : Nat → String) :
    ∀ f a, 1 ≤ f → ∃ i, a ≤ i ∧ i ≤ a + (f - 1) ∧ pickCode st cands a f = cands i := by
  intro f
  induction f with
  | zero => intro a h; omega
  | succ g ih =>
    intro a _
    cases g with
    | zero => exact ⟨a, le_refl a, by omega, by simp [pickCode]⟩
    | succ g2 =>
      cases hnone : (findCode st (cands a)).isNone with
      | true =>
        refine ⟨a, le_refl a, by omega, ?_⟩
        show pickCode st cands a (g2 + 2) = cands a
        simp [pickCode, hnone]
      | false =>
        obtain ⟨i, h1, h2, h3⟩ := ih (a + 1) (by omega)
        refine ⟨i, by omega, by omega, ?_⟩
        show pickCode st cands a (g2 + 2) = cands i
        simp only [pickCode, hnone, Bool.false_eq_true, if_false]
        exact h3

/--
C7: in the uniqueness loop run against a fixed store with attempt budget
10, the returned code string is one of the candidates generated within
the first 10 attempts (the probe is retried at most 10 times), and when
every one of the 10 probed candidates already exists in the store the
loop does not fail: it returns the tenth (last) candidate, so the
operation proceeds to the persistence step rather than failing at the
generation step.
-/
theorem pickCode_retry_bound (st : Store) (cands : Nat → String) :
    (∃ i, i ≤ 9 ∧ pickCode st cands 0 10 = cands i) ∧
    ((List.range 10).all (fun i => (findCode st (cands i)).isSome) = true →
      pickCode st cands 0 10 = cands 9) := by
  constructor
  · obtain ⟨i, h1, h2, h3⟩ := pickCode_bounded st cands 10 0 (by norm_num)
    exact ⟨i, by omega, h3⟩
  · intro hall
    have h := pickCode_exhaust st cands 10 0 (by norm_num) ?_
    · simpa using h
    · intro i h1 h2
      have := List.all_eq_true.mp hall i (List.mem_range.mpr (by omega))
      simpa using this

/--
C7 witness: a store already containing the code string DUP, probed with
the candidate stream that proposes DUP at every attempt: every probe in
the budget hits, and the loop returns the last candidate (DUP itself)
instead of failing.
-/
theorem pickCode_retry_bound_witness :
    pickCode stDup candsDup 0 10 = "DUP" :=
  (pickCode_retry_bound stDup candsDup).2 (by decide)

/-! ## Claim C8 -/

theorem find?_isSome_of_mem (l : List AccessCode) (p : AccessCode → Bool) (c : AccessCode)
    (hc : c ∈ l) (hp : p c = true) : ∃ d, l.find? p = some d := by
  induction l with
  | nil => cases hc
  | cons a t ih =>
    by_cases ha : p a
    · exact ⟨a, by simp [List.find?_cons, ha]⟩
    · rcases List.mem_cons.mp hc with h | hmem
      · subst h; rw [hp] at ha; simp at ha
      · obtain ⟨d, hd⟩ := ih hmem
        exact ⟨d, by simp [List.find?_cons, ha, hd]⟩

/-- Inversion of a successful addCode: no record with the same code
string existed, the assigned key is the auto-increment counter, and the
new active record is appended. -/
theorem addCode_ok_inv (st : Store) (uid : Nat) (s ty : String) (st2 : Store) (k : Nat)
    (hadd : addCode st uid s ty = .ok (st2, k)) :
    st.codes.any (fun c => c.code == s) = false ∧ k = st.nextCodeId ∧
    st2 = { users := st.users
            codes := st.codes ++ [(⟨st.nextCodeId, uid, s, ty, true⟩ : AccessCode)]
            nextCodeId := st.nextCodeId + 1 } := by
  unfold addCode at hadd
  cases hA : st.codes.any (fun c => c.code == s) with
  | true => rw [hA] at hadd; simp at hadd
  | false =>
    rw [hA] at hadd
    simp only [Bool.false_eq_true, if_false, Except.ok.injEq, Prod.mk.injEq] at hadd
    exact ⟨rfl, hadd.2.symm, hadd.1.symm⟩

/-- Inversion of a successful write phase: it deactivated, picked the two
candidates against the post-deactivation store, and appended the two new
active records under the next two auto-increment keys. -/
theorem gcfuWrite_inv (st : Store) (ac vc : Nat → String) (uid : Nat)
    (st3 : Store) (a v : String) (ai vi : Nat)
    (hw : gcfuWrite st ac vc uid = .ok (st3, a, v, ai, vi)) :
    ∃ st1, deactivateLoop st (activeCodesOf st uid) = .ok st1 ∧
      a = pickCode st1 ac 0 10 ∧ v = pickCode st1 vc 0 10 ∧
      ai = st1.nextCodeId ∧ vi = st1.nextCodeId + 1 ∧
      st3 = { users := st1.users
              codes := (st1.codes ++ [(⟨st1.nextCodeId, uid, a, "admin", true⟩ : AccessCode)])
                        ++ [(⟨st1.nextCodeId + 1, uid, v, "viewer", true⟩ : AccessCode)]
              nextCodeId := st1.nextCodeId + 1 + 1 } ∧
      st1.codes.any (fun c => c.code == a) = false ∧
      (st1.codes ++ [(⟨st1.nextCodeId, uid, a, "admin", true⟩ : AccessCode)]).any
        (fun c => c.code == v) = false := by
  unfold gcfuWrite at hw
  split at hw
  · simp at hw
  · rename_i st1 hdl
    split at hw
    · simp at hw
    · rename_i st2 admId ha1
      split at hw
      · simp at hw
      · rename_i st3x vwrId ha2
        simp only [Except.ok.injEq, Prod.mk.injEq] at hw
        obtain ⟨h3, hA, hV, hai2, hvi2⟩ := hw
        subst hA
        subst hV
        subst hai2
        subst hvi2
        subst h3
        obtain ⟨hdupA, hkA, hst2⟩ := addCode_ok_inv _ _ _ _ _ _ ha1
        obtain ⟨hdupV, hkV, hst3⟩ := addCode_ok_inv _ _ _ _ _ _ ha2
        subst hst2
        subst hkA
        subst hkV
        subst hst3
        exact ⟨st1, hdl, rfl, rfl, rfl, rfl, rfl, hdupA, hdupV⟩

/--
C8: given a write phase that persisted the two new codes, the whole
operation fails, and fails with the PersistenceVerificationFailed error,
exactly when the read-back cannot retrieve one of the new codes even
after the retry: the first lookup by code string AND its fallback lookup
by assigned key both miss for at least one of the two codes, and the
single retried lookup (after the additional delay) still misses for at
least one of them.  In particular the fallback by identifier and the one
retry are honoured, and when the retry round sees both codes the
operation succeeds despite the first round missing.
-/
theorem gcfu_persistence_failed_iff (st : Store) (ac vc : Nat → String) (rb : RBOracle)
    (uid : Nat) (st3 : Store) (a v : String) (ai vi : Nat)
    (hw : gcfuWrite st ac vc uid = .ok (st3, a, v, ai, vi)) :
    generateCodesForUser st ac vc rb uid = .error .persistenceVerificationFailed ↔
      (((rb.adm1 = false ∧ rb.admById = false) ∨ (rb.vwr1 = false ∧ rb.vwrById = false)) ∧
        (rb.adm2 = false ∨ rb.vwr2 = false)) := by
  obtain ⟨st1, hdl, ha, hv, hai, hvi, hst3, hA, hV⟩ := gcfuWrite_inv st ac vc uid st3 a v ai vi hw
  have hfa : ∃ da, findCode st3 a = some da := by
    apply find?_isSome_of_mem _ _ (⟨st1.nextCodeId, uid, a, "admin", true⟩ : AccessCode)
    · rw [hst3]
      exact List.mem_append_left _ (List.mem_append_right _ (List.mem_singleton.mpr rfl))
    · simp
  have hfv : ∃ dv, findCode st3 v = some dv := by
    apply find?_isSome_of_mem _ _ (⟨st1.nextCodeId + 1, uid, v, "viewer", true⟩ : AccessCode)
    · rw [hst3]
      exact List.mem_append_right _ (List.mem_singleton.mpr rfl)
    · simp
  have hfai : ∃ db, findById st3 ai = some db := by
    apply find?_isSome_of_mem _ _ (⟨st1.nextCodeId, uid, a, "admin", true⟩ : AccessCode)
    · rw [hst3]
      exact List.mem_append_left _ (List.mem_append_right _ (List.mem_singleton.mpr rfl))
    · simp [hai]
  have hfvi : ∃ dc, findById st3 vi = some dc := by
    apply find?_isSome_of_mem _ _ (⟨st1.nextCodeId + 1, uid, v, "viewer", true⟩ : AccessCode)
    · rw [hst3]
      exact List.mem_append_right _ (List.mem_singleton.mpr rfl)
    · simp [hvi]
  obtain ⟨da, hda⟩ := hfa
  obtain ⟨dv, hdv⟩ := hfv
  obtain ⟨db, hdb⟩ := hfai
  obtain ⟨dc, hdc⟩ := hfvi
  have hg : generateCodesForUser st ac vc rb uid =
      match readBack st3 a v ai vi rb with
      | .error e => .error e
      | .ok _ => .ok (st3, a, v) := by
    unfold generateCodesForUser
    rw [hw]
  rw [hg]
  unfold readBack
  rw [hda, hdv, hdb, hdc]
  rcases rb with ⟨b1, b2, b3, b4, b5, b6⟩
  cases b1 <;> cases b2 <;> cases b3 <;> cases b4 <;> cases b5 <;> cases b6 <;> simp

/--
C8 witness: regenerating on the empty store with a read-back oracle that
misses every request (the store acknowledged the writes but never serves
them back) makes the operation fail with PersistenceVerificationFailed.
-/
theorem gcfu_persistence_failed_witness :
    generateCodesForUser stEmpty candsAdm candsVwr rbNone 1 =
      .error .persistenceVerificationFailed :=
  (gcfu_persistence_failed_iff stEmpty candsAdm candsVwr rbNone 1
    ⟨[], [⟨1, 1, "ADM-AAAAAAAA", "admin", true⟩, ⟨2, 1, "VWR-AAAAAAAA", "viewer", true⟩], 3⟩
    "ADM-AAAAAAAA" "VWR-AAAAAAAA" 1 2 (by decide)).mpr (by decide)

/-! ## Characterizing the deactivation loop (for C1 and C3) -/

theorem setInactiveIds_nil (c : AccessCode) : setInactiveIds [] c = c := rfl

theorem map_setInactiveIds_nil (l : List AccessCode) : l.map (setInactiveIds []) = l := by
  induction l with
  | nil => rfl
  | cons a t ih => simp [setInactiveIds_nil, ih]

theorem setInactiveIds_cons (cid : Nat) (ids : List Nat) (x : AccessCode) :
    setInactiveIds ids (if x.id == cid then { x with isActive := false } else x)
      = setInactiveIds (cid :: ids) x := by
  cases h : x.id == cid <;> cases hm : idMem x.id ids <;>
    simp [setInactiveIds, idMem, h, hm]

theorem setInactiveIds_id_eq (ids : List Nat) (x : AccessCode) :
    (setInactiveIds ids x).id = x.id := by
  unfold setInactiveIds
  split <;> rfl

theorem setInactiveIds_userId_eq (ids : List Nat) (x : AccessCode) :
    (setInactiveIds ids x).userId = x.userId := by
  unfold setInactiveIds
  split <;> rfl

theorem setInactiveIds_type_eq (ids : List Nat) (x : AccessCode) :
    (setInactiveIds ids x).type = x.type := by
  unfold setInactiveIds
  split <;> rfl

theorem setInactiveIds_code_eq (ids : List Nat) (x : AccessCode) :
    (setInactiveIds ids x).code = x.code := by
  unfold setInactiveIds
  split <;> rfl

theorem setInactiveIds_active_inv (ids : List Nat) (x : AccessCode)
    (h : (setInactiveIds ids x).isActive = true) :
    x.isActive = true ∧ idMem x.id ids = false := by
  unfold setInactiveIds at h
  cases hm : idMem x.id ids with
  | true => rw [hm] at h; simp at h
  | false => rw [hm] at h; simp at h; exact ⟨h, rfl⟩

theorem setInactiveIds_inactive_of_mem (ids : List Nat) (x : AccessCode)
    (h : idMem x.id ids = true) : (setInactiveIds ids x).isActive = false := by
  unfold setInactiveIds
  rw [h]
  simp

theorem updateCodeActive_found (st : Store) (cid : Nat) (d : AccessCode)
    (hd : d ∈ st.codes) (hid : d.id = cid) :
    updateCodeActive st cid false =
      .ok { st with codes :=
        st.codes.map (fun x => if x.id == cid then { x with isActive := false } else x) } := by
  unfold updateCodeActive
  obtain ⟨d0, hd0⟩ := find?_isSome_of_mem st.codes (fun x => x.id == cid) d hd (by simp [hid])
  rw [hd0]

/-- The deactivation loop succeeds whenever every listed record's key is
present, and its net effect on the codes collection is to clear isActive
on exactly the records whose key appears among the active listed ones. -/
theorem deactivateLoop_spec (cs : List AccessCode) : ∀ st : Store,
    (∀ c ∈ cs, ∃ d ∈ st.codes, d.id = c.id) →
    deactivateLoop st cs =
      .ok { st with codes :=
        st.codes.map (setInactiveIds ((cs.filter (fun c => c.isActive)).map (fun c => c.id))) } := by
  induction cs with
  | nil =>
    intro st _
    simp only [deactivateLoop, List.filter_nil, List.map_nil]
    rw [map_setInactiveIds_nil]
  | cons c rest ih =>
    intro st hmem
    cases hact : c.isActive with
    | false =>
      have hrec := ih st (fun c' h => hmem c' (List.mem_cons_of_mem _ h))
      simp only [deactivateLoop, hact, Bool.false_eq_true, if_false]
      rw [hrec]
      simp [List.filter_cons, hact]
    | true =>
      obtain ⟨d, hd, hdid⟩ := hmem c (List.mem_cons_self c rest)
      have hupd := updateCodeActive_found st c.id d hd hdid
      have hmem2 : ∀ c' ∈ rest,
          ∃ d2 ∈ st.codes.map (fun x => if x.id == c.id then { x with isActive := false } else x),
            d2.id = c'.id := by
        intro c' h
        obtain ⟨d2, hd2, hdid2⟩ := hmem c' (List.mem_cons_of_mem _ h)
        refine ⟨if d2.id == c.id then { d2 with isActive := false } else d2,
          List.mem_map_of_mem _ hd2, ?_⟩
        cases hh : d2.id == c.id <;> simp [hh, hdid2]
      have hrec := ih
        { st with
          codes := st.codes.map (fun x => if x.id == c.id then { x with isActive := false } else x) }
        hmem2
      have hstep : deactivateLoop st (c :: rest) =
          deactivateLoop
            { st with
              codes := st.codes.map (fun x => if x.id == c.id then { x with isActive := false } else x) }
            rest := by
        simp only [deactivateLoop, hact, if_true]
        rw [hupd]
      rw [hstep, hrec]
      have hfc : (c :: rest).filter (fun x => x.isActive) = c :: rest.filter (fun x => x.isActive) := by
        simp [List.filter_cons, hact]
      simp only [hfc, List.map_cons, List.map_map]
      have hfun : (setInactiveIds ((rest.filter (fun x => x.isActive)).map (fun x => x.id)) ∘
          fun x => if x.id == c.id then { x with isActive := false } else x)
          = setInactiveIds (c.id :: (rest.filter (fun x => x.isActive)).map (fun x => x.id)) := by
        funext x
        exact setInactiveIds_cons c.id _ x
      rw [hfun]

theorem distinctIds_inj (l : List AccessCode) (h : distinctIds l = true) :
    ∀ c ∈ l, ∀ d ∈ l, c.id = d.id → c = d := by
  induction l with
  | nil => intro c hc; cases hc
  | cons a t ih =>
    simp only [distinctIds, Bool.and_eq_true] at h
    obtain ⟨hall, ht⟩ := h
    intro c hc d hd hid
    rcases List.mem_cons.mp hc with rfl | hc2 <;> rcases List.mem_cons.mp hd with rfl | hd2
    · rfl
    · have := List.all_eq_true.mp hall d hd2
      simp only [Bool.not_eq_eq_eq_not, Bool.not_true, beq_eq_false_iff_ne] at this
      exact absurd hid.symm this
    · have := List.all_eq_true.mp hall c hc2
      simp only [Bool.not_eq_eq_eq_not, Bool.not_true, beq_eq_false_iff_ne] at this
      exact absurd hid this
    · exact ih ht c hc2 d hd2 hid

theorem idMem_iff (i : Nat) (l : List AccessCode) :
    idMem i (l.map (fun c => c.id)) = true ↔ ∃ c ∈ l, c.id = i := by
  induction l with
  | nil => simp [idMem]
  | cons a t ih =>
    simp only [List.map_cons, idMem, Bool.or_eq_true, beq_iff_eq, ih]
    constructor
    · rintro (rfl | ⟨c, hc, rfl⟩)
      · exact ⟨a, List.mem_cons_self a t, rfl⟩
      · exact ⟨c, List.mem_cons_of_mem _ hc, rfl⟩
    · rintro ⟨c, hc, rfl⟩
      rcases List.mem_cons.mp hc with rfl | hc2
      · exact Or.inl rfl
      · exact Or.inr ⟨c, hc2, rfl⟩

theorem wfCodes_parts (st : Store) (h : st.wfCodes = true) :
    distinctIds st.codes = true ∧ ∀ c ∈ st.codes, c.id < st.nextCodeId := by
  unfold Store.wfCodes at h
  simp only [Bool.and_eq_true] at h
  refine ⟨h.1, fun c hc => ?_⟩
  have := List.all_eq_true.mp h.2 c hc
  exact of_decide_eq_true this

theorem idMem_active_eq (st : Store) (uid : Nat) (hdist : distinctIds st.codes = true)
    (c : AccessCode) (hc : c ∈ st.codes) :
    idMem c.id ((activeCodesOf st uid).map (fun d => d.id)) = (c.userId == uid && c.isActive) := by
  cases hp : (c.userId == uid && c.isActive) with
  | true =>
    exact (idMem_iff _ _).mpr ⟨c, List.mem_filter.mpr ⟨hc, hp⟩, rfl⟩
  | false =>
    cases hm : idMem c.id ((activeCodesOf st uid).map (fun d => d.id)) with
    | false => rfl
    | true =>
      obtain ⟨y, hy, hyid⟩ := (idMem_iff _ _).mp hm
      have hy2 := List.mem_filter.mp hy
      have hyc : y = c := distinctIds_inj _ hdist y hy2.1 c hc hyid
      rw [hyc] at hy2
      rw [hy2.2] at hp
      cases hp

theorem filter_active_self (st : Store) (uid : Nat) :
    (activeCodesOf st uid).filter (fun c => c.isActive) = activeCodesOf st uid := by
  apply List.filter_eq_self.mpr
  intro c hc
  have h2 := (List.mem_filter.mp hc).2
  simp only [Bool.and_eq_true] at h2
  exact h2.2

/-- Inversion of a successful generateCodesForUser down to the write
phase. -/
theorem gcfu_ok_inv (st : Store) (ac vc : Nat → String) (rb : RBOracle) (uid : Nat)
    (st' : Store) (a v : String)
    (hok : generateCodesForUser st ac vc rb uid = .ok (st', a, v)) :
    ∃ ai vi, gcfuWrite st ac vc uid = .ok (st', a, v, ai, vi) := by
  unfold generateCodesForUser at hok
  split at hok
  · simp at hok
  · rename_i st3 adm vwr admId vwrId hw
    split at hok
    · simp at hok
    · simp only [Except.ok.injEq, Prod.mk.injEq] at hok
      obtain ⟨h1, h2, h3⟩ := hok
      subst h1
      subst h2
      subst h3
      exact ⟨admId, vwrId, hw⟩

/-- The store after a successful regeneration: every code of the user
that was active is cleared, the other records are untouched, and the two
new active records sit at the next two keys. -/
theorem gcfu_state (st : Store) (ac vc : Nat → String) (rb : RBOracle) (uid : Nat)
    (st' : Store) (a v : String)
    (hok : generateCodesForUser st ac vc rb uid = .ok (st', a, v)) :
    st' = { users := st.users
            codes :=
              (st.codes.map (setInactiveIds ((activeCodesOf st uid).map (fun c => c.id)))
                ++ [(⟨st.nextCodeId, uid, a, "admin", true⟩ : AccessCode)])
                ++ [(⟨st.nextCodeId + 1, uid, v, "viewer", true⟩ : AccessCode)]
            nextCodeId := st.nextCodeId + 1 + 1 } := by
  obtain ⟨ai, vi, hw⟩ := gcfu_ok_inv st ac vc rb uid st' a v hok
  obtain ⟨st1, hdl, ha, hv, hai, hvi, hst3, hA, hV⟩ := gcfuWrite_inv st ac vc uid st' a v ai vi hw
  have hdl2 := deactivateLoop_spec (activeCodesOf st uid) st
    (fun c hc => ⟨c, List.mem_of_mem_filter hc, rfl⟩)
  rw [filter_active_self] at hdl2
  rw [hdl] at hdl2
  have hst1 : st1 =
      { st with
        codes := st.codes.map (setInactiveIds ((activeCodesOf st uid).map (fun c => c.id))) } :=
    Except.ok.inj hdl2
  rw [hst3, hst1]

/-! ## Claim C1 -/

/--
C1: after every successful regeneration for a user, the store holds
exactly one active admin code and exactly one active viewer code for
that user, and every code of the user that was active before the call is
inactive afterwards (well-formedness of the store: distinct
auto-increment keys, all below the counter).
-/
theorem regen_active_pair (st : Store) (ac vc : Nat → String) (rb : RBOracle) (uid : Nat)
    (st' : Store) (a v : String) (hwf : st.wfCodes = true)
    (hok : generateCodesForUser st ac vc rb uid = .ok (st', a, v)) :
    st'.codes.countP (fun c => c.userId == uid && c.type == "admin" && c.isActive) = 1 ∧
    st'.codes.countP (fun c => c.userId == uid && c.type == "viewer" && c.isActive) = 1 ∧
    st.codes.all (fun c => !(c.userId == uid && c.isActive) ||
      st'.codes.all (fun d => !(d.id == c.id) || d.isActive == false)) = true := by
  obtain ⟨hdist, hbound⟩ := wfCodes_parts st hwf
  have hst' := gcfu_state st ac vc rb uid st' a v hok
  subst hst'
  set ids := (activeCodesOf st uid).map (fun c => c.id) with hids
  have hmap0 : ∀ x ∈ st.codes.map (setInactiveIds ids),
      (x.userId == uid && x.isActive) = false := by
    intro x hx
    obtain ⟨y, hy, rfl⟩ := List.mem_map.mp hx
    cases hxa : (setInactiveIds ids y).isActive with
    | false => simp [hxa]
    | true =>
      obtain ⟨hya, hym⟩ := setInactiveIds_active_inv ids y hxa
      cases hyu : ((setInactiveIds ids y).userId == uid) with
      | false => simp [hyu]
      | true =>
        rw [setInactiveIds_userId_eq] at hyu
        have hmem : idMem y.id ids = true := by
          rw [hids]
          exact (idMem_iff _ _).mpr ⟨y, List.mem_filter.mpr ⟨hy, by simp [hyu, hya]⟩, rfl⟩
        rw [hmem] at hym
        cases hym
  have hmappred : ∀ x ∈ st.codes.map (setInactiveIds ids), ∀ ty : String,
      (x.userId == uid && x.type == ty && x.isActive) = false := by
    intro x hx ty
    have h0 := hmap0 x hx
    cases h1 : (x.userId == uid) <;> cases h2 : x.isActive <;>
      rw [h1, h2] at h0 <;> simp_all
  have hva : ("viewer" == "admin") = false := by decide
  have hav : ("admin" == "viewer") = false := by decide
  refine ⟨?_, ?_, ?_⟩
  · rw [List.countP_append, List.countP_append]
    have h1 : (st.codes.map (setInactiveIds ids)).countP
        (fun c => c.userId == uid && c.type == "admin" && c.isActive) = 0 := by
      rw [List.countP_eq_zero]
      intro x hx
      rw [hmappred x hx "admin"]
      simp
    rw [h1]
    simp [List.countP_cons, hva]
  · rw [List.countP_append, List.countP_append]
    have h1 : (st.codes.map (setInactiveIds ids)).countP
        (fun c => c.userId == uid && c.type == "viewer" && c.isActive) = 0 := by
      rw [List.countP_eq_zero]
      intro x hx
      rw [hmappred x hx "viewer"]
      simp
    rw [h1]
    simp [List.countP_cons, hav]
  · rw [List.all_eq_true]
    intro c hc
    cases hcp : (c.userId == uid && c.isActive) with
    | false => simp [hcp]
    | true =>
      simp only [hcp, Bool.not_true, Bool.false_or]
      rw [List.all_eq_true]
      intro d hd
      rcases List.mem_append.mp hd with hd1 | hd2
      · rcases List.mem_append.mp hd1 with hdm | hda
        · obtain ⟨y, hy, rfl⟩ := List.mem_map.mp hdm
          cases hid : ((setInactiveIds ids y).id == c.id) with
          | false => simp [hid]
          | true =>
            rw [setInactiveIds_id_eq] at hid
            have hyc : y = c := distinctIds_inj _ hdist y hy c hc (by simpa using hid)
            subst hyc
            have hmemid : idMem y.id ids = true := by
              rw [hids]
              exact (idMem_iff _ _).mpr ⟨y, List.mem_filter.mpr ⟨hy, hcp⟩, rfl⟩
            have hinact := setInactiveIds_inactive_of_mem ids y hmemid
            simp [hinact]
        · simp only [List.mem_singleton] at hda
          subst hda
          have hlt : c.id < st.nextCodeId := hbound c hc
          have hne : (st.nextCodeId == c.id) = false := by
            simp only [beq_eq_false_iff_ne]
            omega
          simp [hne]
      · simp only [List.mem_singleton] at hd2
        subst hd2
        have hlt : c.id < st.nextCodeId := hbound c hc
        have hne : (st.nextCodeId + 1 == c.id) = false := by
          simp only [beq_eq_false_iff_ne]
          omega
        simp [hne]

/--
C1 witness: regenerating user 1 on the mixed store (one active admin
code, one already-inactive viewer code) leaves exactly one active admin
and one active viewer code, and the previously active record (key 1) is
inactive afterwards.
-/
theorem regen_active_pair_witness :
    stMixedAfter.codes.countP (fun c => c.userId == 1 && c.type == "admin" && c.isActive) = 1 ∧
    stMixedAfter.codes.countP (fun c => c.userId == 1 && c.type == "viewer" && c.isActive) = 1 ∧
    stMixed.codes.all (fun c => !(c.userId == 1 && c.isActive) ||
      stMixedAfter.codes.all (fun d => !(d.id == c.id) || d.isActive == false)) = true :=
  regen_active_pair stMixed candsAdm candsVwr rbAll 1 stMixedAfter "ADM-AAAAAAAA"
    "VWR-AAAAAAAA" (by decide) (by decide)

/-! ## Claim C3 -/

theorem filter_filter_own (l : List AccessCode) (p q : AccessCode → Bool) :
    (l.filter p).filter q = l.filter (fun x => p x && q x) := by
  induction l with
  | nil => rfl
  | cons x t ih => cases hp : p x <;> cases hq : q x <;> simp [List.filter_cons, hp, hq, ih]

theorem filter_congr_own (l : List AccessCode) (p q : AccessCode → Bool)
    (h : ∀ x ∈ l, p x = q x) : l.filter p = l.filter q := by
  induction l with
  | nil => rfl
  | cons x t ih =>
    have hx := h x (List.mem_cons_self x t)
    have ht := ih (fun y hy => h y (List.mem_cons_of_mem _ hy))
    rw [List.filter_cons, List.filter_cons, hx, ht]

theorem foldl_delete_codes (cs : List AccessCode) : ∀ st : Store,
    (cs.foldl (fun acc c => deleteCodeById acc c.id) st).codes
      = st.codes.filter (fun c => !(idMem c.id (cs.map (fun d => d.id)))) := by
  induction cs with
  | nil =>
    intro st
    simp only [List.foldl_nil, List.map_nil]
    exact (List.filter_eq_self.mpr (fun c _ => by simp [idMem])).symm
  | cons d rest ih =>
    intro st
    rw [List.foldl_cons, ih]
    show (st.codes.filter (fun c => !(c.id == d.id))).filter
        (fun c => !(idMem c.id (rest.map (fun x => x.id)))) = _
    rw [filter_filter_own]
    apply filter_congr_own
    intro x _
    cases h1 : (x.id == d.id) <;> simp [idMem, h1]

/-- What deleteUser actually removes from the codes collection: exactly
the records of the user that are active (getUserCodes only surfaces
active records, so the cascade misses the inactive history). -/
theorem deleteUser_codes_spec (st : Store) (uid : Nat) (hdist : distinctIds st.codes = true) :
    (deleteUser st uid).codes = st.codes.filter (fun c => !(c.userId == uid && c.isActive)) := by
  show ((activeCodesOf st uid).foldl (fun acc c => deleteCodeById acc c.id) st).codes = _
  rw [foldl_delete_codes]
  apply filter_congr_own
  intro x hx
  rw [idMem_active_eq st uid hdist x hx]

/--
C3 counterexample: the claim says deleting a user cascade-hard-deletes
ALL of that user's AccessCode records, active and inactive.  On the
store whose only record for user 1 is an inactive code, deleteUser
removes the user but leaves the inactive code record in place, because
deleteUserCodes enumerates the codes through getUserCodes, which returns
only active records.
-/
theorem deleteUser_keeps_inactive_cex :
    (deleteUser stInactive 1).users = [] ∧
    (deleteUser stInactive 1).codes = [⟨1, 1, "ADM-DEADDEAD", "admin", false⟩] := by
  exact ⟨by decide, by decide⟩

/--
C3 (amended): deleting a user hard-deletes exactly that user's ACTIVE
AccessCode records (inactive records survive the cascade, refuting the
claim's "both active and inactive" — see deleteUser_keeps_inactive_cex),
and regeneration never hard-deletes: every code record present before a
successful generateCodesForUser is still present afterwards with the
same key, code string, type and owner (only its isActive flag may have
been cleared).
-/
theorem lifecycle_deletion (st : Store) (uid : Nat) (ac vc : Nat → String) (rb : RBOracle)
    (st' : Store) (a v : String) (hwf : st.wfCodes = true)
    (hok : generateCodesForUser st ac vc rb uid = .ok (st', a, v)) :
    (deleteUser st uid).codes = st.codes.filter (fun c => !(c.userId == uid && c.isActive)) ∧
    st.codes.all (fun c => st'.codes.any (fun d =>
      d.id == c.id && d.code == c.code && d.type == c.type && d.userId == c.userId)) = true := by
  obtain ⟨hdist, hbound⟩ := wfCodes_parts st hwf
  refine ⟨deleteUser_codes_spec st uid hdist, ?_⟩
  have hst' := gcfu_state st ac vc rb uid st' a v hok
  subst hst'
  rw [List.all_eq_true]
  intro c hc
  rw [List.any_eq_true]
  refine ⟨setInactiveIds ((activeCodesOf st uid).map (fun x => x.id)) c,
    List.mem_append_left _ (List.mem_append_left _ (List.mem_map_of_mem _ hc)), ?_⟩
  simp [setInactiveIds_id_eq, setInactiveIds_code_eq, setInactiveIds_type_eq,
    setInactiveIds_userId_eq]

/--
C3 witness: on the mixed store, deleteUser removes exactly the active
record, and the regeneration of stMixedAfter preserved both old records.
-/
theorem lifecycle_deletion_witness :
    (deleteUser stMixed 1).codes =
      stMixed.codes.filter (fun c => !(c.userId == 1 && c.isActive)) ∧
    stMixed.codes.all (fun c => stMixedAfter.codes.any (fun d =>
      d.id == c.id && d.code == c.code && d.type == c.type && d.userId == c.userId)) = true :=
  lifecycle_deletion stMixed 1 candsAdm candsVwr rbAll stMixedAfter "ADM-AAAAAAAA"
    "VWR-AAAAAAAA" (by decide) (by decide)
